import Mathlib

/-!
Verification development for the GeoJSON composite layer
(`src/modules/layers/src/geojson-layer/geojson-layer.ts`).

The layer's own logic (`updateState`, `_updateStateJSON`, `_updateStateBinary`,
`getPickingInfo`, `getSubLayerAccessor`, `_renderPointLayers`) is embedded
directly from the source.  Helpers that live in sibling modules of the
repository (`replaceInRange` from `utils.ts`, `separateGeojsonFeatures` /
`getGeojsonFeatures` from `geojson.ts`, `binaryToFeatureForAccesor` from
`geojson-binary.ts`, `POINT_LAYER` from `sub-layer-map.ts`, the
`createLayerProps*` builders and the parent `CompositeLayer` methods) are
modelled from the specification; each such definition carries a doc comment
starting with `Modelled from the spec:`.

JS strings are embedded as `List Char` so that prefix reasoning is by
structural induction; JS numbers that are used as indices are `Nat`/`Int`.
-/

/-- A GeoJSON position: an array of numbers (the numeric type of a
coordinate is irrelevant to every property below, so `Int` stands in). -/
abbrev Position := List Int

/-- A linear ring / path: an ordered list of positions. -/
abbrev GeoRing := List Position

/-- One entry of a feature's `properties` map. -/
abbrev PropEntry := String × String

/-- GeoJSON geometry values.  `unknownGeometry` stands for a missing or
unrecognized `type`, which the normalizer treats as an empty contribution. -/
inductive Geometry where
  | point (coordinates : Position)
  | multiPoint (coordinates : List Position)
  | lineString (coordinates : GeoRing)
  | multiLineString (coordinates : List GeoRing)
  | polygon (coordinates : List GeoRing)
  | multiPolygon (coordinates : List (List GeoRing))
  | geometryCollection (geometries : List Geometry)
  | unknownGeometry

/-- A logical feature on the object path: a geometry plus a property map. -/
structure Feature where
  geometry : Geometry
  properties : List PropEntry

/-- Per-kind coordinate payload carried by one separated geometry record. -/
inductive Coords where
  | pt (c : Position)
  | ln (path : GeoRing)
  | pg (rings : List GeoRing)

/-- Modelled from the spec: one record of a separated bucket.  The wrapper
produced by `getSubLayerRow` (parent class) tags each row with
`__source.index` (here `sourceIndex`) and a back-reference to the
originating feature object (here `sourceFeature`); the spec additionally
gives each record a `subIndex` numbering the parts of a `Multi*` geometry. -/
structure GeomRec where
  coords : Coords
  subIndex : Nat
  sourceIndex : Nat
  sourceFeature : Feature

/-- The three per-kind coordinate lists produced by normalizing a single
geometry, in encounter order. -/
structure Normalized where
  points : List Position
  lines : List GeoRing
  polygons : List (List GeoRing)

def Normalized.append (a b : Normalized) : Normalized :=
  ⟨a.points ++ b.points, a.lines ++ b.lines, a.polygons ++ b.polygons⟩

mutual

/-- Modelled from the spec: the geometry normalizer (`geojson.ts`).
`Point/MultiPoint` contribute point records, `LineString/MultiLineString`
line records, `Polygon/MultiPolygon` polygon records; a
`GeometryCollection` is flattened recursively and an unknown geometry
contributes nothing. -/
def normalizeGeometry : Geometry → Normalized
  | .point c => ⟨[c], [], []⟩
  | .multiPoint cs => ⟨cs, [], []⟩
  | .lineString p => ⟨[], [p], []⟩
  | .multiLineString ps => ⟨[], ps, []⟩
  | .polygon rs => ⟨[], [], [rs]⟩
  | .multiPolygon ps => ⟨[], [], ps⟩
  | .geometryCollection gs => normalizeGeometryList gs
  | .unknownGeometry => ⟨[], [], []⟩

/-- Normalization of a list of geometries (children of a collection),
concatenating the contributions in encounter order. -/
def normalizeGeometryList : List Geometry → Normalized
  | [] => ⟨[], [], []⟩
  | g :: gs => (normalizeGeometry g).append (normalizeGeometryList gs)

end

/-- Wrap a list of per-kind payloads of one feature into bucket records,
assigning `subIndex` by position and tagging the source index and feature. -/
def wrapRecords (mk : α → Coords) (i : Nat) (f : Feature) (cs : List α) : List GeomRec :=
  cs.enum.map (fun p => ⟨mk p.2, p.1, i, f⟩)

/-- The point-bucket records contributed by feature `f` at source index `i`. -/
def extractPoints (i : Nat) (f : Feature) : List GeomRec :=
  wrapRecords .pt i f (normalizeGeometry f.geometry).points

/-- The line-bucket records contributed by feature `f` at source index `i`. -/
def extractLines (i : Nat) (f : Feature) : List GeomRec :=
  wrapRecords .ln i f (normalizeGeometry f.geometry).lines

/-- The polygon-bucket records contributed by feature `f` at source index `i`. -/
def extractPolygons (i : Nat) (f : Feature) : List GeomRec :=
  wrapRecords .pg i f (normalizeGeometry f.geometry).polygons

/-- The three bucket kinds (the keys of `SeparatedGeometries`; the derived
polygon-outline bucket repeats the polygon bucket's records and is omitted). -/
inductive BucketKey where
  | points
  | lines
  | polygons
deriving DecidableEq

/-- Per-feature record extraction for one bucket kind. -/
def extractOf : BucketKey → Nat → Feature → List GeomRec
  | .points => extractPoints
  | .lines => extractLines
  | .polygons => extractPolygons

/-- Modelled from the spec: the bucket separator restricted to a feature
range (`separateGeojsonFeatures(features, wrapFeature, dataRange)` in
`geojson.ts`), for one bucket: walk the features, and for every feature
whose source position lies in `[startRow, endRow)` append its records. -/
def sepB (extract : Nat → Feature → List GeomRec) (startRow endRow : Nat) :
    Nat → List Feature → List GeomRec
  | _, [] => []
  | i, f :: fs =>
    (if startRow ≤ i ∧ i < endRow then extract i f else []) ++
      sepB extract startRow endRow (i + 1) fs

/-- The records of features occupying consecutive source positions starting
at `i` (separation with no range restriction). -/
def recsFrom (extract : Nat → Feature → List GeomRec) : Nat → List Feature → List GeomRec
  | _, [] => []
  | i, f :: fs => extract i f ++ recsFrom extract (i + 1) fs

/-- A JS object with the three bucket keys is embedded as a function from
the key type; `Option` marks keys that are present (`state.features` starts
out as the empty object `{}`). -/
def SepState := BucketKey → Option (List GeomRec)

/-- One bucket of the separated collection, as a total function (the result
shape of a full `separateGeojsonFeatures` run, which populates every key). -/
def separateAllK (features : List Feature) (k : BucketKey) : List GeomRec :=
  sepB (extractOf k) 0 features.length 0 features

/-- A change range `{startRow, endRow}`: a half-open interval of source
feature indices. -/
structure ChangeRange where
  startRow : Nat
  endRow : Nat
deriving DecidableEq

/-- Modelled from the spec: `replaceInRange` (`utils.ts`).  Locate the
contiguous span of records whose `getIndex` falls in
`[dataRange.startRow, dataRange.endRow)` by a sequential scan (records are
sorted by source index), splice the replacement records over that span, and
report the affected output interval
`{startRow: spliceStart, endRow: spliceStart + replacement length}`. -/
def replaceInRange (getIndex : α → Nat) (dataRange : ChangeRange)
    (repl : List α) (data : List α) : List α × ChangeRange :=
  let s := data.findIdx (fun x => decide (dataRange.startRow ≤ getIndex x))
  let e := data.findIdx (fun x => decide (dataRange.endRow ≤ getIndex x))
  (data.take s ++ repl ++ data.drop e, ⟨s, s + repl.length⟩)

/-- One iteration of the inner loop of `_updateStateJSON` for one bucket:
separate the features of the change range and splice them into the bucket. -/
def spliceStep (extract : Nat → Feature → List GeomRec) (features : List Feature)
    (r : ChangeRange) (data : List GeomRec) : List GeomRec × ChangeRange :=
  replaceInRange (fun rec => rec.sourceIndex) r
    (sepB extract r.startRow r.endRow 0 features) data

/-- The range loop of `_updateStateJSON` for one bucket: apply the change
ranges left to right, threading the progressively updated bucket and
appending one report entry per range. -/
def applyRangesB (extract : Nat → Feature → List GeomRec) (features : List Feature) :
    List ChangeRange → List GeomRec × List ChangeRange → List GeomRec × List ChangeRange
  | [], acc => acc
  | r :: rs, acc =>
    let step := spliceStep extract features r acc.1
    applyRangesB extract features rs (step.1, acc.2 ++ [step.2])

/-- A change report object: per bucket key, the (optional) list of affected
output ranges accumulated for that bucket. -/
def DiffState := BucketKey → Option (List ChangeRange)

/-- The range-update path of `_updateStateJSON` (the
`Array.isArray(changeFlags.dataChanged)` branch): every bucket key present
in the previous `state.features` is copied (`.slice()`), then every change
range is spliced into it in list order while its report entries accumulate;
an absent key stays absent. -/
def updateRangesK (features : List Feature) (ranges : List ChangeRange)
    (old : SepState) : SepState × DiffState :=
  (fun k => (old k).map (fun d => (applyRangesB (extractOf k) features ranges (d, [])).1),
   fun k => (old k).map (fun d => (applyRangesB (extractOf k) features ranges (d, [])).2))

/-- One column of the binary (columnar) input: a `globalFeatureIds` array
plus the data needed to synthesize a logical feature at a primitive index
(the properties table, keyed by feature id, and the per-primitive geometry
view obtained by slicing the coordinate buffers). -/
structure BinaryAttr where
  globalFeatureIds : List Nat
  featureProperties : List (List PropEntry)
  geoms : List Geometry

/-- The object-path content of `props.data`: a single feature, an array of
features, or a `FeatureCollection`. -/
inductive GeoInput where
  | single (f : Feature)
  | featureArray (fs : List Feature)
  | collection (fs : List Feature)

/-- A non-null `props.data` object: its key set (what the JS `in` operator
consults) together with the object-path and columnar-path content. -/
structure DataObj where
  keys : List String
  geo : GeoInput
  points : BinaryAttr
  lines : BinaryAttr
  polygons : BinaryAttr

/-- `props.data` as received by `updateState`: either a falsy value or an
object. -/
inductive PropsData where
  | nullData
  | obj (o : DataObj)

/-- The binary discriminator of `updateState` (line 356):
`data && 'points' in data && 'polygons' in data && 'lines' in data`. -/
def isBinaryData : PropsData → Bool
  | .nullData => false
  | .obj o => o.keys.contains "points" && o.keys.contains "polygons" && o.keys.contains "lines"

/-- Modelled from the spec: `getGeojsonFeatures` (`geojson.ts`) flattens the
accepted object-path input shapes into one ordered feature sequence.  (On a
falsy input the real helper raises; that point is unreachable from the
claims below, which only take the object path on object inputs.) -/
def getGeojsonFeatures : PropsData → List Feature
  | .nullData => []
  | .obj o =>
    match o.geo with
    | .single f => [f]
    | .featureArray fs => fs
    | .collection fs => fs

/-- Modelled from the spec: the result of the `createLayerProps*` builders,
kept symbolic.  `fromFeatures` records the buckets and diff handed to
`createLayerPropsFromFeatures`; `fromBinary` records the three columnar
sub-structures consumed by `createLayerPropsFromBinary` (which reads only
them, not the object-path content). -/
inductive LayerPropsModel where
  | emptyProps
  | fromFeatures (features : SepState) (diff : DiffState)
  | fromBinary (points lines polygons : BinaryAttr)

/-- The state of the layer instance: `layerProps`, `features`,
`featuresDiff` (as set by the state initializer / `updateState`) and the
`binary` flag (absent until the first data change). -/
structure LayerState where
  layerProps : LayerPropsModel
  features : SepState
  featuresDiff : DiffState
  binary : Option Bool

/-- The state set up by the state initializer: empty objects, no binary flag. -/
def initialLayerState : LayerState :=
  ⟨.emptyProps, fun _ => none, fun _ => none, none⟩

/-- `changeFlags.dataChanged`: falsy, truthy-but-not-an-array, or an array
of change ranges (an empty array is truthy and is an array). -/
inductive DataChangedFlag where
  | falsy
  | truthy
  | changedRanges (rs : List ChangeRange)

/-- All-keys-present feature state, as produced by a full rebuild. -/
def allSome (features : List Feature) : SepState :=
  fun k => some (separateAllK features k)

/-- `_updateStateJSON`: flatten the data, then either splice the change
ranges into the previous buckets (array-valued `dataChanged`) or rebuild
all buckets from scratch; finally store features, diff and layer props. -/
def updateStateJSONModel (data : PropsData) (flag : DataChangedFlag)
    (st : LayerState) : LayerState :=
  let features := getGeojsonFeatures data
  match flag with
  | .changedRanges rs =>
    let nf := (updateRangesK features rs st.features).1
    let df := (updateRangesK features rs st.features).2
    { st with features := nf, featuresDiff := df, layerProps := .fromFeatures nf df }
  | _ =>
    let nf := allSome features
    let df : DiffState := fun _ => none
    { st with features := nf, featuresDiff := df, layerProps := .fromFeatures nf df }

/-- `_updateStateBinary`: only `layerProps` is rebuilt, from the columnar
sub-structures of the data. -/
def updateStateBinaryModel (data : PropsData) (st : LayerState) : LayerState :=
  match data with
  | .nullData => { st with layerProps := .emptyProps }
  | .obj o => { st with layerProps := .fromBinary o.points o.lines o.polygons }

/-- `updateState` (lines 351-366): return unchanged on a falsy
`dataChanged`; otherwise store the binary discriminator and dispatch to the
binary or JSON path. -/
def updateStateModel (data : PropsData) (flag : DataChangedFlag)
    (st : LayerState) : LayerState :=
  match flag with
  | .falsy => st
  | f =>
    let b := isBinaryData data
    let st1 := { st with binary := some b }
    if b then updateStateBinaryModel data st1
    else updateStateJSONModel data f st1

/-- JS strings, embedded as character lists. -/
abbrev Str := List Char

/-- `String.prototype.startsWith`: `strStarts s p` holds when `p` is a
prefix of `s`. -/
def strStarts : Str → Str → Bool
  | _, [] => true
  | [], _ :: _ => false
  | c :: cs, d :: ds => c = d && strStarts cs ds

/-- The `FEATURE_TYPES` constant (line 291). -/
def FEATURE_TYPES : List Str := ["points".toList, "linestrings".toList, "polygons".toList]

/-- The prefix `` `${this.id}-${ft}-` `` tested by `getPickingInfo`. -/
def ftIdSegment (layerId t : Str) : Str := layerId ++ '-' :: t ++ ['-']

/-- The `featureType` computed by `getPickingInfo` (line 416): the first
feature type whose id segment prefixes the source sub-layer's id. -/
def featureTypeOf (layerId sourceLayerId : Str) : Option Str :=
  FEATURE_TYPES.find? (fun t => strStarts sourceLayerId (ftIdSegment layerId t))

/-- The inputs of one `getPickingInfo` call: the composite layer's id, the
picked sub-layer's id, the index produced by the sub-layer, the stored
`state.binary` flag (truthiness of `Option Bool`), and
`data.points.globalFeatureIds.value`. -/
structure PickParams where
  layerId : Str
  sourceLayerId : Str
  index : Int
  binary : Bool
  pointsIds : List Nat

/-- `getPickingInfo` (lines 413-423): compute `featureType`, and on the
binary path remap a non-negative points-text index through
`points.globalFeatureIds.value` (a JS out-of-range read yields `undefined`,
embedded as `none`); every other pick keeps the sub-layer's index. -/
def getPickingInfoModel (p : PickParams) : Option Str × Option Int :=
  let ft := featureTypeOf p.layerId p.sourceLayerId
  let newIndex :=
    if 0 ≤ p.index ∧
        strStarts p.sourceLayerId (p.layerId ++ "-points-text".toList) = true ∧
        p.binary = true then
      (p.pointsIds.get? p.index.toNat).map Int.ofNat
    else some p.index
  (ft, newIndex)

/-- An accessor prop value: either a constant or a per-feature function
(which JS calls as `accessor(object, info)`). -/
inductive AccessorV (β : Type) where
  | constant (v : β)
  | func (f : Feature → BinaryAttr × Nat → β)

/-- The result of `getSubLayerAccessor`: either the parent-class result or
the binary wrapper built on lines 591-596. -/
inductive SubLayerAccessor (β : Type) where
  | fromSuper (a : AccessorV β)
  | wrapped (f : Feature → BinaryAttr × Nat → β)

/-- Modelled from the spec: `super.getSubLayerAccessor` (the
`CompositeLayer` parent class), to which object-path and non-function
accessors are delegated unchanged; its result is kept symbolic. -/
def superGetSubLayerAccessor (a : AccessorV β) : SubLayerAccessor β :=
  .fromSuper a

/-- Modelled from the spec: `binaryToFeatureForAccesor`
(`geojson-binary.ts`) lazily synthesizes the logical feature at a primitive
index: the geometry view sliced at that index, and the properties row found
through `globalFeatureIds`. -/
def binaryToFeatureForAccesor (d : BinaryAttr) (index : Nat) : Feature :=
  { geometry := d.geoms.getD index .unknownGeometry,
    properties := d.featureProperties.getD (d.globalFeatureIds.getD index 0) [] }

/-- `getSubLayerAccessor` (lines 585-597): on the binary path a function
accessor is wrapped so that each invocation rebuilds the feature from
`info.data` and `info.index`; otherwise the parent class handles it. -/
def getSubLayerAccessorModel (binary : Bool) (a : AccessorV β) : SubLayerAccessor β :=
  match binary, a with
  | true, .func f =>
    .wrapped (fun _object info => f (binaryToFeatureForAccesor info.1 info.2) info)
  | _, _ => superGetSubLayerAccessor a

/-- Invoking the accessor returned by `getSubLayerAccessor` on one
`(object, info)` pair.  The parent-class result evaluates the underlying
accessor on the object-path row (kept as the accessor's own application). -/
def invokeSubAccessor (s : SubLayerAccessor β) (object : Feature)
    (info : BinaryAttr × Nat) : β :=
  match s with
  | .fromSuper (.constant v) => v
  | .fromSuper (.func f) => f object info
  | .wrapped f => f object info

/-- The point sub-layer classes. -/
inductive PointLayerType where
  | circle
  | icon
  | text
deriving DecidableEq

/-- Modelled from the spec: the `POINT_LAYER` map (`sub-layer-map.ts`),
whose known keys are exactly the supported point types `'circle'`,
`'icon'` and `'text'`; any other key reads as `undefined`. -/
def POINT_LAYER (t : Str) : Option PointLayerType :=
  if t = "circle".toList then some .circle
  else if t = "icon".toList then some .icon
  else if t = "text".toList then some .text
  else none

/-- `String.prototype.split('+')`. -/
def splitPlus : Str → List Str
  | [] => [[]]
  | c :: rest =>
    match splitPlus rest with
    | [] => [[]]
    | w :: ws => if c = '+' then [] :: w :: ws else (c :: w) :: ws

/-- Iteration of `new Set(xs)` with the already-seen elements threaded:
keep each element's first occurrence, in encounter order. -/
def dedupGo (seen : List Str) : List Str → List Str
  | [] => []
  | x :: xs => if seen.contains x then dedupGo seen xs else x :: dedupGo (x :: seen) xs

/-- Iteration order of `new Set(xs)`: first occurrences, in encounter
order. -/
def dedupFirst (l : List Str) : List Str := dedupGo [] l

/-- `_renderPointLayers` (lines 511-566), restricted to which sub-layers
get created: one per distinct `'+'`-separated token of `pointType` that is
a known `POINT_LAYER` key and passes the `shouldRenderSubLayer` gate; the
created layer's id suffix is `points-${type}`. -/
def renderPointLayers (pointType : Str) (shouldRender : Str → Bool) :
    List (Str × PointLayerType) :=
  (dedupFirst (splitPlus pointType)).filterMap (fun t =>
    match POINT_LAYER t with
    | none => none
    | some m =>
      if shouldRender ("points-".toList ++ t) then some ("points-".toList ++ t, m)
      else none)

/-- A heap of bucket arrays, used to reason about JS array identity: a
reference is an arena position, and two references to distinct positions
are distinct array objects. -/
structure Heap where
  arena : List (List GeomRec)

/-- Read the array behind a reference. -/
def Heap.read (h : Heap) (r : Nat) : List GeomRec :=
  h.arena.getD r []

/-- Overwrite the array behind a reference (in-place mutation). -/
def Heap.write (h : Heap) (r : Nat) (v : List GeomRec) : Heap :=
  ⟨h.arena.set r v⟩

/-- Allocate a fresh array (`.slice()` allocates its result). -/
def Heap.alloc (h : Heap) (v : List GeomRec) : Heap × Nat :=
  (⟨h.arena ++ [v]⟩, h.arena.length)

/-- One range of the splice loop over a heap-held bucket: `replaceInRange`
mutates the array behind `newRef` in place and its report entry is pushed. -/
def spliceFoldStep (extract : Nat → Feature → List GeomRec) (features : List Feature)
    (newRef : Nat) (acc : Heap × List ChangeRange) (r : ChangeRange) :
    Heap × List ChangeRange :=
  let step := spliceStep extract features r (acc.1.read newRef)
  (acc.1.write newRef step.1, acc.2 ++ [step.2])

/-- The range-update path of `_updateStateJSON` for one bucket key, at
the level of array identity: `newFeatures[key] = oldFeatures[key].slice()`
allocates a fresh array, each `replaceInRange` call then mutates that same
fresh array in place, and the reference stored back into `state.features`
is the fresh one. -/
def updateBucketRefs (extract : Nat → Feature → List GeomRec)
    (features : List Feature) (ranges : List ChangeRange)
    (h : Heap) (oldRef : Nat) : Heap × Nat × List ChangeRange :=
  let copied := h.read oldRef
  let alloc := h.alloc copied
  let final := ranges.foldl (spliceFoldStep extract features alloc.2) (alloc.1, [])
  (final.1, alloc.2, final.2)

/-! ### Lemmas about separation and splicing -/

theorem wrapRecords_sourceIndex (mk : α → Coords) (i : Nat) (f : Feature) (cs : List α)
    (r : GeomRec) (h : r ∈ wrapRecords mk i f cs) : r.sourceIndex = i := by
  simp only [wrapRecords, List.mem_map] at h
  obtain ⟨p, _, rfl⟩ := h
  rfl

theorem extractOf_sourceIndex (k : BucketKey) (i : Nat) (f : Feature) (r : GeomRec)
    (h : r ∈ extractOf k i f) : r.sourceIndex = i := by
  cases k <;>
    exact wrapRecords_sourceIndex _ _ _ _ _ h

theorem recsFrom_append (extract : Nat → Feature → List GeomRec)
    (u v : List Feature) (i : Nat) :
    recsFrom extract i (u ++ v) =
      recsFrom extract i u ++ recsFrom extract (i + u.length) v := by
  induction u generalizing i with
  | nil => simp [recsFrom]
  | cons f fs ih =>
    simp only [List.cons_append, recsFrom, List.append_eq, ih (i + 1), List.length_cons,
      List.append_assoc]
    have h : i + 1 + fs.length = i + (fs.length + 1) := by omega
    rw [h]

theorem recsFrom_sourceIndex_bound (extract : Nat → Feature → List GeomRec)
    (hx : ∀ i f r, r ∈ extract i f → GeomRec.sourceIndex r = i)
    (fs : List Feature) (i : Nat) (r : GeomRec) (h : r ∈ recsFrom extract i fs) :
    i ≤ r.sourceIndex ∧ r.sourceIndex < i + fs.length := by
  induction fs generalizing i with
  | nil => simp [recsFrom] at h
  | cons f fs ih =>
    simp only [recsFrom, List.mem_append] at h
    rcases h with h | h
    · have := hx i f r h
      simp only [List.length_cons]
      omega
    · have := ih (i + 1) h
      simp only [List.length_cons]
      omega

theorem sepB_of_le (extract : Nat → Feature → List GeomRec) (s e : Nat)
    (fs : List Feature) (i : Nat) (h : e ≤ i) : sepB extract s e i fs = [] := by
  induction fs generalizing i with
  | nil => rfl
  | cons f fs ih =>
    simp only [sepB]
    rw [if_neg (by omega), ih (i + 1) (by omega)]
    rfl

theorem sepB_skip (extract : Nat → Feature → List GeomRec) (s e : Nat)
    (pre rest : List Feature) (i : Nat) (h : i + pre.length ≤ s) :
    sepB extract s e i (pre ++ rest) = sepB extract s e (i + pre.length) rest := by
  induction pre generalizing i with
  | nil => simp
  | cons f fs ih =>
    simp only [List.cons_append, sepB, List.append_eq, List.length_cons] at *
    rw [if_neg (by omega), ih (i + 1) (by omega), List.nil_append]
    have h2 : i + 1 + fs.length = i + (fs.length + 1) := by omega
    rw [h2]

theorem sepB_window (extract : Nat → Feature → List GeomRec)
    (mid : List Feature) : ∀ (s i : Nat) (rest : List Feature), s ≤ i →
    sepB extract s (i + mid.length) i (mid ++ rest) = recsFrom extract i mid := by
  induction mid with
  | nil =>
    intro s i rest _
    exact sepB_of_le extract s i rest i (Nat.le_refl i)
  | cons m mid ih =>
    intro s i rest hs
    simp only [List.cons_append, sepB, List.append_eq, List.length_cons]
    rw [if_pos (by omega)]
    have h2 : i + (mid.length + 1) = (i + 1) + mid.length := by omega
    rw [h2, ih s (i + 1) rest (by omega)]
    rfl

theorem sepB_full (extract : Nat → Feature → List GeomRec) (fs : List Feature) :
    ∀ (i e : Nat), i + fs.length ≤ e → sepB extract 0 e i fs = recsFrom extract i fs := by
  induction fs with
  | nil => intro i e _; rfl
  | cons f fs ih =>
    intro i e h
    simp only [sepB, List.length_cons] at *
    rw [if_pos (by omega), ih (i + 1) e (by omega)]
    rfl

theorem separateAllK_eq_recsFrom (fs : List Feature) (k : BucketKey) :
    separateAllK fs k = recsFrom (extractOf k) 0 fs :=
  sepB_full (extractOf k) fs 0 fs.length (by omega)

theorem findIdx_append_false (p : α → Bool) (u v : List α)
    (h : ∀ x ∈ u, p x = false) :
    (u ++ v).findIdx p = u.length + v.findIdx p := by
  induction u with
  | nil => simp
  | cons a u ih =>
    have ha : p a = false := h a (List.mem_cons_self a u)
    have ih' := ih (fun x hx => h x (List.mem_cons_of_mem a hx))
    simp [List.findIdx_cons, ha, ih']
    omega

theorem findIdx_eq_zero_of_forall (p : α → Bool) (l : List α)
    (h : ∀ x ∈ l, p x = true) : l.findIdx p = 0 := by
  cases l with
  | nil => simp
  | cons a l => simp [List.findIdx_cons, h a (List.mem_cons_self a l)]

theorem replaceInRange_three (getIndex : α → Nat) (a b : Nat) (hab : a ≤ b)
    (A B C repl : List α)
    (hA : ∀ x ∈ A, getIndex x < a)
    (hB : ∀ x ∈ B, a ≤ getIndex x ∧ getIndex x < b)
    (hC : ∀ x ∈ C, b ≤ getIndex x) :
    replaceInRange getIndex ⟨a, b⟩ repl (A ++ B ++ C) =
      (A ++ repl ++ C, ⟨A.length, A.length + repl.length⟩) := by
  have hs : (A ++ B ++ C).findIdx (fun x => decide (a ≤ getIndex x)) = A.length := by
    have h0 : (B ++ C).findIdx (fun x => decide (a ≤ getIndex x)) = 0 := by
      apply findIdx_eq_zero_of_forall
      intro x hx
      rcases List.mem_append.mp hx with h | h
      · exact decide_eq_true (hB x h).1
      · exact decide_eq_true (Nat.le_trans hab (hC x h))
    rw [List.append_assoc,
      findIdx_append_false _ _ _ (fun x hx => decide_eq_false (Nat.not_le.mpr (hA x hx))),
      h0, Nat.add_zero]
  have he : (A ++ B ++ C).findIdx (fun x => decide (b ≤ getIndex x)) = A.length + B.length := by
    have h0 : C.findIdx (fun x => decide (b ≤ getIndex x)) = 0 :=
      findIdx_eq_zero_of_forall _ _ (fun x hx => decide_eq_true (hC x hx))
    have hfalse : ∀ x ∈ A ++ B, (fun x => decide (b ≤ getIndex x)) x = false := by
      intro x hx
      rcases List.mem_append.mp hx with h | h
      · exact decide_eq_false (Nat.not_le.mpr (Nat.lt_of_lt_of_le (hA x h) hab))
      · exact decide_eq_false (Nat.not_le.mpr (hB x h).2)
    rw [findIdx_append_false _ _ _ hfalse, h0, List.length_append, Nat.add_zero]
  have ht : (A ++ B ++ C).take A.length = A := by
    rw [List.append_assoc]
    exact List.take_left A (B ++ C)
  have hd : (A ++ B ++ C).drop (A.length + B.length) = C := by
    rw [← List.length_append]
    exact List.drop_left (A ++ B) C
  simp only [replaceInRange, hs, he, ht, hd]

theorem spliceStep_full (k : BucketKey) (P X Y S : List Feature)
    (hlen : Y.length = X.length) :
    spliceStep (extractOf k) (P ++ Y ++ S) ⟨P.length, P.length + X.length⟩
        (recsFrom (extractOf k) 0 (P ++ X ++ S)) =
      (recsFrom (extractOf k) 0 (P ++ Y ++ S),
        ⟨(recsFrom (extractOf k) 0 P).length,
          (recsFrom (extractOf k) 0 P).length + (recsFrom (extractOf k) P.length Y).length⟩) := by
  have hx := extractOf_sourceIndex k
  have hrep : sepB (extractOf k) P.length (P.length + X.length) 0 (P ++ Y ++ S) =
      recsFrom (extractOf k) P.length Y := by
    rw [List.append_assoc, sepB_skip (extractOf k) _ _ P (Y ++ S) 0 (by omega)]
    have h2 : P.length + X.length = P.length + Y.length := by omega
    rw [h2, Nat.zero_add]
    exact sepB_window (extractOf k) Y P.length P.length S (Nat.le_refl _)
  have hdata : recsFrom (extractOf k) 0 (P ++ X ++ S) =
      recsFrom (extractOf k) 0 P ++ recsFrom (extractOf k) P.length X ++
        recsFrom (extractOf k) (P.length + X.length) S := by
    rw [recsFrom_append, recsFrom_append]
    simp [List.append_assoc]
  have hnew : recsFrom (extractOf k) 0 (P ++ Y ++ S) =
      recsFrom (extractOf k) 0 P ++ recsFrom (extractOf k) P.length Y ++
        recsFrom (extractOf k) (P.length + X.length) S := by
    rw [recsFrom_append, recsFrom_append]
    have h2 : P.length + Y.length = P.length + X.length := by omega
    simp [List.append_assoc, h2]
  rw [spliceStep, hrep, hdata,
    replaceInRange_three _ P.length (P.length + X.length) (by omega) _ _ _ _
      (fun x hxm => by
        have := recsFrom_sourceIndex_bound (extractOf k)
          (fun i f r hr => hx i f r hr) P 0 x hxm
        omega)
      (fun x hxm => by
        have := recsFrom_sourceIndex_bound (extractOf k)
          (fun i f r hr => hx i f r hr) X P.length x hxm
        omega)
      (fun x hxm => by
        have := recsFrom_sourceIndex_bound (extractOf k)
          (fun i f r hr => hx i f r hr) S (P.length + X.length) x hxm
        omega),
    hnew]

/-! ### C1 -/

/-- C1 (counterexample): the claim fails when the replacement list's length
differs from the replaced range's length.  Concretely, a one-feature
collection `[Point [0]]` has its range `[0,1)` replaced by two point
features; the range-update path splices only the separation of rows
`[0,1)` of the new collection and keeps no record for row 1, so the point
bucket has 1 record where a full rebuild has 2. -/
theorem c1_counterexample :
    (updateStateModel
        (PropsData.obj ⟨[], .featureArray [⟨.point [1], []⟩, ⟨.point [2], []⟩],
          ⟨[], [], []⟩, ⟨[], [], []⟩, ⟨[], [], []⟩⟩)
        (.changedRanges [⟨0, 1⟩])
        ⟨.emptyProps, allSome [⟨.point [0], []⟩], fun _ => none, none⟩).features
      BucketKey.points ≠
      some (separateAllK [⟨.point [1], []⟩, ⟨.point [2], []⟩] BucketKey.points) := by
  intro h
  have h2 := congrArg (Option.map List.length) h
  revert h2
  decide

/-- C1 (amended): for every prior collection `P ++ X ++ S`, if the
contiguous range `[P.length, P.length + X.length)` is replaced by a list
`Y` of the same length (`Y.length = X.length`), then running `updateState`
on the object path with `changeFlags.dataChanged = [that range]` over a
state holding the full separation of the prior collection yields, for every
bucket kind, exactly the bucket of a full rebuild
(`separateGeojsonFeatures`) of the post-replacement collection
`P ++ Y ++ S`. -/
theorem c1_range_update_equals_full_rebuild
    (data : PropsData) (P X Y S : List Feature) (st : LayerState)
    (hbin : isBinaryData data = false)
    (hlen : Y.length = X.length)
    (hdata : getGeojsonFeatures data = P ++ Y ++ S)
    (hfeat : ∀ k, st.features k = some (separateAllK (P ++ X ++ S) k))
    (k : BucketKey) :
    (updateStateModel data
        (.changedRanges [⟨P.length, P.length + X.length⟩]) st).features k =
      some (separateAllK (P ++ Y ++ S) k) := by
  have h1 : updateStateModel data
        (.changedRanges [⟨P.length, P.length + X.length⟩]) st
      = updateStateJSONModel data (.changedRanges [⟨P.length, P.length + X.length⟩])
          { st with binary := some (isBinaryData data) } := by
    simp only [updateStateModel, hbin]
    rfl
  rw [h1]
  show (updateRangesK (getGeojsonFeatures data)
      [⟨P.length, P.length + X.length⟩] st.features).1 k = _
  show (st.features k).map
      (fun d => (applyRangesB (extractOf k) (getGeojsonFeatures data)
        [⟨P.length, P.length + X.length⟩] (d, [])).1) = _
  rw [hfeat k, hdata]
  show some ((spliceStep (extractOf k) (P ++ Y ++ S)
      ⟨P.length, P.length + X.length⟩ (separateAllK (P ++ X ++ S) k)).1) = _
  rw [separateAllK_eq_recsFrom (P ++ X ++ S) k,
    congrArg Prod.fst (spliceStep_full k P X Y S hlen),
    separateAllK_eq_recsFrom (P ++ Y ++ S) k]

/-- C1 (witness): the amended theorem applied at a concrete instance:
`[Point [0], LineString []]` with range `[0,1)` replaced by the
single feature `Point [9]`. -/
theorem c1_witness :
    isBinaryData (PropsData.obj ⟨[], .featureArray [⟨.point [9], []⟩, ⟨.lineString [], []⟩],
        ⟨[], [], []⟩, ⟨[], [], []⟩, ⟨[], [], []⟩⟩) = false ∧
    ([(⟨.point [9], []⟩ : Feature)].length = [(⟨.point [0], []⟩ : Feature)].length) ∧
    (updateStateModel
        (PropsData.obj ⟨[], .featureArray [⟨.point [9], []⟩, ⟨.lineString [], []⟩],
          ⟨[], [], []⟩, ⟨[], [], []⟩, ⟨[], [], []⟩⟩)
        (.changedRanges [⟨0, 1⟩])
        ⟨.emptyProps, allSome [⟨.point [0], []⟩, ⟨.lineString [], []⟩],
          fun _ => none, none⟩).features BucketKey.points =
      some (separateAllK [⟨.point [9], []⟩, ⟨.lineString [], []⟩] BucketKey.points) :=
  ⟨rfl, rfl,
    c1_range_update_equals_full_rebuild
      (PropsData.obj ⟨[], .featureArray [⟨.point [9], []⟩, ⟨.lineString [], []⟩],
        ⟨[], [], []⟩, ⟨[], [], []⟩, ⟨[], [], []⟩⟩)
      [] [⟨.point [0], []⟩] [⟨.point [9], []⟩] [⟨.lineString [], []⟩]
      ⟨.emptyProps, allSome [⟨.point [0], []⟩, ⟨.lineString [], []⟩],
        fun _ => none, none⟩
      rfl rfl rfl (fun _ => rfl) BucketKey.points⟩

/-! ### C2, C9 -/

/-- The claim-side reading of the discriminator: the data object contains
all three keys `'points'`, `'polygons'`, `'lines'`. -/
def containsAllBinaryKeys : PropsData → Prop
  | .nullData => False
  | .obj o => "points" ∈ o.keys ∧ "polygons" ∈ o.keys ∧ "lines" ∈ o.keys

theorem isBinaryData_iff (data : PropsData) :
    isBinaryData data = true ↔ containsAllBinaryKeys data := by
  cases data with
  | nullData => simp [isBinaryData, containsAllBinaryKeys]
  | obj o =>
    simp [isBinaryData, containsAllBinaryKeys, List.contains, List.elem_iff, and_assoc]

theorem updateStateBinaryModel_binary (data : PropsData) (st : LayerState) :
    (updateStateBinaryModel data st).binary = st.binary := by
  cases data <;> rfl

theorem updateStateJSONModel_binary (data : PropsData) (flag : DataChangedFlag)
    (st : LayerState) : (updateStateJSONModel data flag st).binary = st.binary := by
  cases flag <;> rfl

theorem updateStateModel_binary (data : PropsData) (flag : DataChangedFlag)
    (st : LayerState) (h : flag ≠ .falsy) :
    (updateStateModel data flag st).binary = some (isBinaryData data) := by
  cases flag with
  | falsy => exact absurd rfl h
  | truthy =>
    simp only [updateStateModel]
    split
    · rw [updateStateBinaryModel_binary]
    · rw [updateStateJSONModel_binary]
  | changedRanges rs =>
    simp only [updateStateModel]
    split
    · rw [updateStateBinaryModel_binary]
    · rw [updateStateJSONModel_binary]

/-- C2: on every non-falsy data change, the columnar/binary path is chosen
iff the data object contains all three keys `'points'`, `'polygons'` and
`'lines'`; when it is, the resulting state is exactly the previous state
with `binary := true` and `layerProps` rebuilt from the three columnar
sub-structures alone (`features`/`featuresDiff` untouched, the object-path
content never consulted); when any key is missing the object path
(`_updateStateJSON`) is taken. -/
theorem c2_binary_discriminator (data : PropsData) (flag : DataChangedFlag)
    (st : LayerState) (hflag : flag ≠ .falsy) :
    ((updateStateModel data flag st).binary = some true ↔ containsAllBinaryKeys data)
    ∧ (containsAllBinaryKeys data →
        ∃ o, data = .obj o ∧
          updateStateModel data flag st =
            { st with binary := some true,
                      layerProps := .fromBinary o.points o.lines o.polygons })
    ∧ (¬ containsAllBinaryKeys data →
        updateStateModel data flag st =
          updateStateJSONModel data flag { st with binary := some false }) := by
  refine ⟨?_, ?_, ?_⟩
  · rw [updateStateModel_binary data flag st hflag]
    rw [show (some (isBinaryData data) = some true) ↔ (isBinaryData data = true) by simp]
    exact isBinaryData_iff data
  · intro hall
    cases data with
    | nullData => exact absurd hall (fun h => h)
    | obj o =>
      refine ⟨o, rfl, ?_⟩
      have hb : isBinaryData (.obj o) = true := (isBinaryData_iff _).mpr hall
      cases flag with
      | falsy => exact absurd rfl hflag
      | truthy => simp [updateStateModel, hb, updateStateBinaryModel]
      | changedRanges rs => simp [updateStateModel, hb, updateStateBinaryModel]
  · intro hnall
    have hb : isBinaryData data = false := by
      cases hx : isBinaryData data
      · rfl
      · exact absurd ((isBinaryData_iff data).mp hx) hnall
    cases flag with
    | falsy => exact absurd rfl hflag
    | truthy => simp [updateStateModel, hb]
    | changedRanges rs => simp [updateStateModel, hb]

/-- C2 (witness): the discriminator characterization at a concrete binary
input with all three keys present. -/
theorem c2_witness :
    (DataChangedFlag.truthy ≠ DataChangedFlag.falsy) ∧
    ((updateStateModel
        (PropsData.obj ⟨["points", "polygons", "lines"], .featureArray [],
          ⟨[], [], []⟩, ⟨[], [], []⟩, ⟨[], [], []⟩⟩)
        DataChangedFlag.truthy initialLayerState).binary = some true ↔
      containsAllBinaryKeys
        (PropsData.obj ⟨["points", "polygons", "lines"], .featureArray [],
          ⟨[], [], []⟩, ⟨[], [], []⟩, ⟨[], [], []⟩⟩)) :=
  ⟨fun h => DataChangedFlag.noConfusion h,
    (c2_binary_discriminator
      (PropsData.obj ⟨["points", "polygons", "lines"], .featureArray [],
        ⟨[], [], []⟩, ⟨[], [], []⟩, ⟨[], [], []⟩⟩)
      DataChangedFlag.truthy initialLayerState
      (fun h => DataChangedFlag.noConfusion h)).1⟩

/-- C9: when `changeFlags.dataChanged` is falsy, `updateState` returns
without touching any layer state: `features`, `featuresDiff`, `layerProps`
and the `binary` flag are all exactly as before. -/
theorem c9_falsy_dataChanged_is_noop (data : PropsData) (st : LayerState) :
    updateStateModel data .falsy st = st := rfl

/-! ### C3 -/

theorem applyRangesB_diff_length (extract : Nat → Feature → List GeomRec)
    (features : List Feature) :
    ∀ (rs : List ChangeRange) (d : List GeomRec) (ds : List ChangeRange),
    ((applyRangesB extract features rs (d, ds)).2).length = ds.length + rs.length := by
  intro rs
  induction rs with
  | nil => intro d ds; rfl
  | cons r rs ih =>
    intro d ds
    simp only [applyRangesB]
    rw [ih]
    simp only [List.length_append, List.length_cons, List.length_nil]
    omega

theorem applyRangesB_acc (extract : Nat → Feature → List GeomRec)
    (features : List Feature) :
    ∀ (rs : List ChangeRange) (d : List GeomRec) (ds : List ChangeRange),
    applyRangesB extract features rs (d, ds)
      = ((applyRangesB extract features rs (d, [])).1,
          ds ++ (applyRangesB extract features rs (d, [])).2) := by
  intro rs
  induction rs with
  | nil => intro d ds; simp [applyRangesB]
  | cons r rs ih =>
    intro d ds
    simp only [applyRangesB, List.nil_append]
    rw [ih ((spliceStep extract features r d).1) (ds ++ [(spliceStep extract features r d).2]),
      ih ((spliceStep extract features r d).1) [(spliceStep extract features r d).2]]
    simp [List.append_assoc]

/-- C3: the range loop of `_updateStateJSON`.  (i) every bucket key present
in the previous state gets a diff list with exactly one entry per change
range (an absent key gets none); (ii) ranges are consumed strictly in list
order, each splice applied to the bucket as already updated by the earlier
ranges, with its report entry appended behind the earlier entries; (iii) a
range whose separation contributes no records to a bucket still produces a
splice whose report entry is zero-length (`endRow = startRow`). -/
theorem c3_ranges_in_order_one_entry_each
    (features : List Feature) (ranges : List ChangeRange) (old : SepState) :
    (∀ k d0, old k = some d0 →
        (updateRangesK features ranges old).2 k
          = some ((applyRangesB (extractOf k) features ranges (d0, [])).2)
        ∧ ((applyRangesB (extractOf k) features ranges (d0, [])).2).length = ranges.length)
    ∧ (∀ k, old k = none → (updateRangesK features ranges old).2 k = none)
    ∧ (∀ k (r : ChangeRange) (rs : List ChangeRange) d ds,
        applyRangesB (extractOf k) features (r :: rs) (d, ds)
          = applyRangesB (extractOf k) features rs
              ((spliceStep (extractOf k) features r d).1,
                ds ++ [(spliceStep (extractOf k) features r d).2]))
    ∧ (∀ k (rs : List ChangeRange) d ds,
        applyRangesB (extractOf k) features rs (d, ds)
          = ((applyRangesB (extractOf k) features rs (d, [])).1,
              ds ++ (applyRangesB (extractOf k) features rs (d, [])).2))
    ∧ (∀ k (r : ChangeRange) d,
        sepB (extractOf k) r.startRow r.endRow 0 features = [] →
        (spliceStep (extractOf k) features r d).2.endRow
          = (spliceStep (extractOf k) features r d).2.startRow) := by
  refine ⟨?_, ?_, ?_, ?_, ?_⟩
  · intro k d0 h
    constructor
    · show (old k).map _ = _
      rw [h, Option.map_some']
    · rw [applyRangesB_diff_length]
      simp
  · intro k h
    show (old k).map _ = _
    rw [h, Option.map_none']
  · intro k r rs d ds
    rfl
  · intro k rs d ds
    exact applyRangesB_acc (extractOf k) features rs d ds
  · intro k r d
    intro h
    simp [spliceStep, replaceInRange, h]

/-- C3 (witness): the per-range diff bookkeeping at a concrete instance
(one present bucket, one change range over an empty collection). -/
theorem c3_witness :
    (((fun _ => some []) : SepState) BucketKey.points = some ([] : List GeomRec)) ∧
    ((updateRangesK [] [⟨0, 0⟩] (fun _ => some [])).2 BucketKey.points
        = some ((applyRangesB (extractOf BucketKey.points) [] [⟨0, 0⟩] ([], [])).2)
      ∧ ((applyRangesB (extractOf BucketKey.points) [] [⟨0, 0⟩] ([], [])).2).length
          = ([⟨0, 0⟩] : List ChangeRange).length) :=
  ⟨rfl,
    (c3_ranges_in_order_one_entry_each [] [⟨0, 0⟩] (fun _ => some [])).1
      BucketKey.points [] rfl⟩

/-! ### String-prefix lemmas, C5, C6, C8 -/

theorem strStarts_nil (s : Str) : strStarts s [] = true := by
  cases s <;> rfl

theorem strStarts_append_self (p r : Str) : strStarts (p ++ r) p = true := by
  induction p with
  | nil => exact strStarts_nil r
  | cons c cs ih => simp [strStarts, ih]

theorem strStarts_comparable (s : Str) : ∀ (p q : Str),
    strStarts s p = true → strStarts s q = true →
    strStarts p q = true ∨ strStarts q p = true := by
  induction s with
  | nil =>
    intro p q hp hq
    cases p with
    | nil => right; exact strStarts_nil q
    | cons d ds => exact absurd hp (by simp [strStarts])
  | cons c cs ih =>
    intro p q hp hq
    cases p with
    | nil => right; exact strStarts_nil q
    | cons d ds =>
      cases q with
      | nil => left; exact strStarts_nil (d :: ds)
      | cons e es =>
        simp only [strStarts, Bool.and_eq_true, decide_eq_true_eq] at hp hq
        obtain ⟨rfl, hp2⟩ := hp
        obtain ⟨rfl, hq2⟩ := hq
        rcases ih ds es hp2 hq2 with h | h
        · left; simp [strStarts, h]
        · right; simp [strStarts, h]

theorem strStarts_append_cancel (l : Str) : ∀ (a b : Str),
    strStarts (l ++ a) (l ++ b) = strStarts a b := by
  induction l with
  | nil => intro a b; rfl
  | cons c cs ih => intro a b; simp [strStarts, ih]

theorem ftIdSegment_unique (layerId s t1 t2 : Str)
    (h1 : t1 ∈ FEATURE_TYPES) (h2 : t2 ∈ FEATURE_TYPES)
    (hs1 : strStarts s (ftIdSegment layerId t1) = true)
    (hs2 : strStarts s (ftIdSegment layerId t2) = true) : t1 = t2 := by
  have hcomp := strStarts_comparable s _ _ hs1 hs2
  have hseg : ∀ t : Str, ftIdSegment layerId t = (layerId ++ ['-']) ++ (t ++ ['-']) := by
    intro t
    simp [ftIdSegment]
  rw [hseg t1, hseg t2, strStarts_append_cancel, strStarts_append_cancel] at hcomp
  simp only [FEATURE_TYPES, List.mem_cons, List.not_mem_nil, or_false] at h1 h2
  rcases h1 with rfl | rfl | rfl <;> rcases h2 with rfl | rfl | rfl <;>
    first
      | rfl
      | (exfalso; revert hcomp; decide)

/-- C8: for every pick, `featureType` is computed as the unique element of
`FEATURE_TYPES` (`'points'`, `'linestrings'`, `'polygons'`) whose segment
`` `${layerId}-${ft}-` `` prefixes the source sub-layer's id, and is
`undefined` (`none`) exactly when no such prefix matches. -/
theorem c8_featureType_first_match (layerId sourceLayerId : Str) :
    (∀ t, featureTypeOf layerId sourceLayerId = some t ↔
        (t ∈ FEATURE_TYPES ∧ strStarts sourceLayerId (ftIdSegment layerId t) = true))
    ∧ (featureTypeOf layerId sourceLayerId = none ↔
        ∀ t ∈ FEATURE_TYPES, strStarts sourceLayerId (ftIdSegment layerId t) = false) := by
  constructor
  · intro t
    constructor
    · intro h
      have h' : FEATURE_TYPES.find?
          (fun u => strStarts sourceLayerId (ftIdSegment layerId u)) = some t := h
      have hgot := List.find?_some h'
      exact ⟨List.mem_of_find?_eq_some h', hgot⟩
    · rintro ⟨hmem, hp⟩
      rcases hfind : featureTypeOf layerId sourceLayerId with _ | t2
      · exfalso
        have h' : FEATURE_TYPES.find?
            (fun u => strStarts sourceLayerId (ftIdSegment layerId u)) = none := hfind
        have := List.find?_eq_none.mp h' t hmem
        rw [hp] at this
        exact this rfl
      · have h' : FEATURE_TYPES.find?
            (fun u => strStarts sourceLayerId (ftIdSegment layerId u)) = some t2 := hfind
        have hgot := List.find?_some h'
        rw [ftIdSegment_unique layerId sourceLayerId t t2 hmem
          (List.mem_of_find?_eq_some h') hp hgot]
  · constructor
    · intro h
      intro t ht
      have h' : FEATURE_TYPES.find?
          (fun u => strStarts sourceLayerId (ftIdSegment layerId u)) = none := h
      have := List.find?_eq_none.mp h' t ht
      cases hb : strStarts sourceLayerId (ftIdSegment layerId t)
      · rfl
      · rw [hb] at this; exact absurd rfl this
    · intro h
      show FEATURE_TYPES.find?
          (fun u => strStarts sourceLayerId (ftIdSegment layerId u)) = none
      apply List.find?_eq_none.mpr
      intro t ht
      rw [h t ht]
      exact Bool.false_ne_true

/-- C5: on the binary path, a pick on the points-text sub-layer with a
non-negative index has its index remapped through
`points.globalFeatureIds.value`; every other pick (object path, negative
index, or a sub-layer that is not points-text) keeps the index produced by
the sub-layer. -/
theorem c5_text_index_remap (p : PickParams) :
    (0 ≤ p.index →
      strStarts p.sourceLayerId (p.layerId ++ "-points-text".toList) = true →
      p.binary = true →
      (getPickingInfoModel p).2 = (p.pointsIds.get? p.index.toNat).map Int.ofNat)
    ∧ (¬ (0 ≤ p.index ∧
          strStarts p.sourceLayerId (p.layerId ++ "-points-text".toList) = true ∧
          p.binary = true) →
      (getPickingInfoModel p).2 = some p.index) := by
  constructor
  · intro h1 h2 h3
    simp only [getPickingInfoModel]
    rw [if_pos ⟨h1, h2, h3⟩]
  · intro h
    simp only [getPickingInfoModel]
    rw [if_neg h]

/-- C5 (witness): a concrete binary-path points-text pick is remapped, with
`globalFeatureIds = [7]` and primitive index 0. -/
theorem c5_witness :
    ((0 : Int) ≤ 0) ∧
    (strStarts "layer-points-text".toList ("layer".toList ++ "-points-text".toList) = true) ∧
    ((getPickingInfoModel ⟨"layer".toList, "layer-points-text".toList, 0, true, [7]⟩).2
      = (([7] : List Nat).get? (Int.toNat 0)).map Int.ofNat) :=
  ⟨by decide, by decide,
    (c5_text_index_remap ⟨"layer".toList, "layer-points-text".toList, 0, true, [7]⟩).1
      (by decide) (by decide) rfl⟩

/-- C6: on the binary points-text path, a primitive index at or beyond the
length of `globalFeatureIds` (a stale index) produces the JS `undefined`
sentinel (`none`) — no out-of-bounds read, and never a valid-but-wrong
feature index. -/
theorem c6_stale_index_yields_sentinel (p : PickParams)
    (hb : p.binary = true)
    (hsrc : strStarts p.sourceLayerId (p.layerId ++ "-points-text".toList) = true)
    (hnn : 0 ≤ p.index)
    (hoob : p.pointsIds.length ≤ p.index.toNat) :
    (getPickingInfoModel p).2 = none ∧ ∀ v : Int, (getPickingInfoModel p).2 ≠ some v := by
  have h : (getPickingInfoModel p).2 = none := by
    simp only [getPickingInfoModel]
    rw [if_pos ⟨hnn, hsrc, hb⟩, List.get?_eq_none.mpr hoob]
    rfl
  exact ⟨h, fun v hv => by rw [h] at hv; exact Option.noConfusion hv⟩

/-- C6 (witness): a concrete stale pick (index 5 against a 1-element id
array) returns the sentinel. -/
theorem c6_witness :
    (true = true) ∧
    (strStarts "layer-points-text".toList ("layer".toList ++ "-points-text".toList) = true) ∧
    ((0 : Int) ≤ 5) ∧
    (([7] : List Nat).length ≤ Int.toNat 5) ∧
    ((getPickingInfoModel ⟨"layer".toList, "layer-points-text".toList, 5, true, [7]⟩).2 = none) :=
  ⟨rfl, by decide, by decide, by decide,
    (c6_stale_index_yields_sentinel
      ⟨"layer".toList, "layer-points-text".toList, 5, true, [7]⟩
      rfl (by decide) (by decide) (by decide)).1⟩

/-- C8 (witness): the characterization at a concrete pick: the sub-layer
`layer-polygons-fill` resolves to feature type `'polygons'`. -/
theorem c8_witness :
    ("polygons".toList ∈ FEATURE_TYPES ∧
      strStarts "layer-polygons-fill".toList
        (ftIdSegment "layer".toList "polygons".toList) = true) ∧
    featureTypeOf "layer".toList "layer-polygons-fill".toList = some "polygons".toList :=
  ⟨⟨by decide, by decide⟩,
    ((c8_featureType_first_match "layer".toList "layer-polygons-fill".toList).1
      "polygons".toList).mpr ⟨by decide, by decide⟩⟩

/-! ### C7 -/

/-- C7: on the binary path, `getSubLayerAccessor` wraps a function accessor
so that every single invocation synthesizes the logical feature anew via
`binaryToFeatureForAccesor(info.data, info.index)` and applies the accessor
to it (the wrapper is a pure function of the invocation's `info`, so
nothing is cached or batch-materialized across invocations); a non-function
accessor, and every accessor on the object path, is delegated unchanged to
the parent class. -/
theorem c7_binary_accessor_wrapping {β : Type} (binary : Bool) (a : AccessorV β) :
    ((binary = false ∨ ∃ v, a = .constant v) →
      getSubLayerAccessorModel binary a = superGetSubLayerAccessor a)
    ∧ (∀ f, binary = true → a = .func f →
      ∀ (object : Feature) (info : BinaryAttr × Nat),
        invokeSubAccessor (getSubLayerAccessorModel binary a) object info
          = f (binaryToFeatureForAccesor info.1 info.2) info) := by
  constructor
  · intro h
    rcases h with h | ⟨v, rfl⟩
    · subst h
      cases a <;> rfl
    · cases binary <;> rfl
  · intro f hb ha object info
    subst hb
    subst ha
    rfl

/-- C7 (witness): a concrete function accessor on the binary path: the
wrapper's result equals the accessor applied to the feature synthesized
from the invocation's own `info`. -/
theorem c7_witness :
    (true = true) ∧
    ((AccessorV.func (fun ft _ => ft.properties.length) : AccessorV Nat)
      = .func (fun ft _ => ft.properties.length)) ∧
    (invokeSubAccessor
        (getSubLayerAccessorModel true
          (AccessorV.func (fun ft _ => ft.properties.length)))
        ⟨.unknownGeometry, []⟩ (⟨[0], [[("name", "x")]], [.point []]⟩, 0)
      = (fun (ft : Feature) (_ : BinaryAttr × Nat) => ft.properties.length)
          (binaryToFeatureForAccesor ⟨[0], [[("name", "x")]], [.point []]⟩ 0)
          (⟨[0], [[("name", "x")]], [.point []]⟩, 0)) :=
  ⟨rfl, rfl,
    (c7_binary_accessor_wrapping true
        (AccessorV.func (fun ft _ => ft.properties.length))).2
      (fun ft _ => ft.properties.length) rfl rfl
      ⟨.unknownGeometry, []⟩ (⟨[0], [[("name", "x")]], [.point []]⟩, 0)⟩

/-! ### C4 -/

theorem getD_set_self {γ : Type} (l : List γ) (i : Nat) (v d : γ) (h : i < l.length) :
    (l.set i v).getD i d = v := by
  rw [List.getD_eq_getElem?_getD, List.getElem?_set_self h]
  rfl

theorem getD_set_ne {γ : Type} (l : List γ) (i j : Nat) (v d : γ) (h : i ≠ j) :
    (l.set i v).getD j d = l.getD j d := by
  rw [List.getD_eq_getElem?_getD, List.getElem?_set_ne h, ← List.getD_eq_getElem?_getD]

theorem getD_append_last {γ : Type} (l : List γ) (v d : γ) :
    (l ++ [v]).getD l.length d = v := by
  rw [List.getD_append_right l [v] d l.length (Nat.le_refl _), Nat.sub_self]
  rfl

theorem foldl_splice_spec (extract : Nat → Feature → List GeomRec)
    (features : List Feature) (newRef oldRef : Nat) (hne : oldRef ≠ newRef) :
    ∀ (ranges : List ChangeRange) (h : Heap) (acc : List ChangeRange),
    newRef < h.arena.length →
    ((ranges.foldl (spliceFoldStep extract features newRef) (h, acc)).1.read newRef
        = (applyRangesB extract features ranges (h.read newRef, acc)).1)
    ∧ ((ranges.foldl (spliceFoldStep extract features newRef) (h, acc)).2
        = (applyRangesB extract features ranges (h.read newRef, acc)).2)
    ∧ ((ranges.foldl (spliceFoldStep extract features newRef) (h, acc)).1.read oldRef
        = h.read oldRef)
    ∧ ((ranges.foldl (spliceFoldStep extract features newRef) (h, acc)).1.arena.length
        = h.arena.length) := by
  intro ranges
  induction ranges with
  | nil =>
    intro h acc _
    exact ⟨rfl, rfl, rfl, rfl⟩
  | cons r rs ih =>
    intro h acc hlt
    have hwlen : ((h.write newRef
        (spliceStep extract features r (h.read newRef)).1).arena.length) = h.arena.length :=
      List.length_set _ _ _
    have hrnew : (h.write newRef
        (spliceStep extract features r (h.read newRef)).1).read newRef
        = (spliceStep extract features r (h.read newRef)).1 :=
      getD_set_self _ _ _ _ hlt
    have hrold : (h.write newRef
        (spliceStep extract features r (h.read newRef)).1).read oldRef = h.read oldRef :=
      getD_set_ne _ _ _ _ _ (fun hx => hne hx.symm)
    obtain ⟨ih1, ih2, ih3, ih4⟩ := ih
      (h.write newRef (spliceStep extract features r (h.read newRef)).1)
      (acc ++ [(spliceStep extract features r (h.read newRef)).2])
      (by rw [hwlen]; exact hlt)
    refine ⟨?_, ?_, ?_, ?_⟩
    · show ((rs.foldl (spliceFoldStep extract features newRef)
          (spliceFoldStep extract features newRef (h, acc) r)).1.read newRef) = _
      rw [show spliceFoldStep extract features newRef (h, acc) r
          = (h.write newRef (spliceStep extract features r (h.read newRef)).1,
              acc ++ [(spliceStep extract features r (h.read newRef)).2]) from rfl]
      rw [ih1, hrnew]
      rfl
    · show ((rs.foldl (spliceFoldStep extract features newRef)
          (spliceFoldStep extract features newRef (h, acc) r)).2) = _
      rw [show spliceFoldStep extract features newRef (h, acc) r
          = (h.write newRef (spliceStep extract features r (h.read newRef)).1,
              acc ++ [(spliceStep extract features r (h.read newRef)).2]) from rfl]
      rw [ih2, hrnew]
      rfl
    · show ((rs.foldl (spliceFoldStep extract features newRef)
          (spliceFoldStep extract features newRef (h, acc) r)).1.read oldRef) = _
      rw [show spliceFoldStep extract features newRef (h, acc) r
          = (h.write newRef (spliceStep extract features r (h.read newRef)).1,
              acc ++ [(spliceStep extract features r (h.read newRef)).2]) from rfl]
      rw [ih3, hrold]
    · show ((rs.foldl (spliceFoldStep extract features newRef)
          (spliceFoldStep extract features newRef (h, acc) r)).1.arena.length) = _
      rw [show spliceFoldStep extract features newRef (h, acc) r
          = (h.write newRef (spliceStep extract features r (h.read newRef)).1,
              acc ++ [(spliceStep extract features r (h.read newRef)).2]) from rfl]
      rw [ih4, hwlen]

/-- C4 (counterexample): on a range-based change the array object
stored for a bucket is NOT the one stored before: `_updateStateJSON` first
copies it (`oldFeatures[key].slice()`, line 383) and splices into the
fresh copy.  Concretely, with an arena holding one bucket array at
reference 0, the reference stored after the update is 1. -/
theorem c4_counterexample :
    (updateBucketRefs (extractOf BucketKey.points) [⟨.point [], []⟩] [⟨0, 1⟩]
        ⟨[([] : List GeomRec)]⟩ 0).2.1 ≠ 0 := by
  decide

/-- C4 (amended): on a range-based change each bucket is stored as
a fresh array object — a `.slice()` copy of the previous bucket allocated
by this update — which the `replaceInRange` calls then splice in place; the
previous array object is left unmodified, and the new array's final
content is exactly the pure range-loop result on the copied records. -/
theorem c4_fresh_copy_spliced (k : BucketKey) (features : List Feature)
    (ranges : List ChangeRange) (h : Heap) (oldRef : Nat)
    (hv : oldRef < h.arena.length) :
    ((updateBucketRefs (extractOf k) features ranges h oldRef).2.1 ≠ oldRef)
    ∧ ((updateBucketRefs (extractOf k) features ranges h oldRef).1.read oldRef
        = h.read oldRef)
    ∧ ((updateBucketRefs (extractOf k) features ranges h oldRef).1.read
          ((updateBucketRefs (extractOf k) features ranges h oldRef).2.1)
        = (applyRangesB (extractOf k) features ranges (h.read oldRef, [])).1)
    ∧ ((updateBucketRefs (extractOf k) features ranges h oldRef).2.2
        = (applyRangesB (extractOf k) features ranges (h.read oldRef, [])).2) := by
  have hne : oldRef ≠ h.arena.length := by omega
  have hlt1 : h.arena.length < (Heap.mk (h.arena ++ [h.read oldRef])).arena.length := by
    simp
  obtain ⟨s1, s2, s3, s4⟩ := foldl_splice_spec (extractOf k) features
    h.arena.length oldRef hne ranges ⟨h.arena ++ [h.read oldRef]⟩ [] hlt1
  have hnew : (Heap.mk (h.arena ++ [h.read oldRef])).read h.arena.length
      = h.read oldRef := by
    simp only [Heap.read]
    exact getD_append_last _ _ _
  have hold : (Heap.mk (h.arena ++ [h.read oldRef])).read oldRef = h.read oldRef := by
    simp only [Heap.read]
    exact List.getD_append _ _ _ _ hv
  refine ⟨?_, ?_, ?_, ?_⟩
  · show h.arena.length ≠ oldRef
    omega
  · show (ranges.foldl (spliceFoldStep (extractOf k) features h.arena.length)
        (⟨h.arena ++ [h.read oldRef]⟩, [])).1.read oldRef = h.read oldRef
    exact s3.trans hold
  · show (ranges.foldl (spliceFoldStep (extractOf k) features h.arena.length)
        (⟨h.arena ++ [h.read oldRef]⟩, [])).1.read h.arena.length = _
    rw [hnew] at s1
    exact s1
  · show (ranges.foldl (spliceFoldStep (extractOf k) features h.arena.length)
        (⟨h.arena ++ [h.read oldRef]⟩, [])).2 = _
    rw [hnew] at s2
    exact s2

/-- C4 (witness): the amended statement at a concrete one-bucket arena. -/
theorem c4_witness :
    ((0 : Nat) < (Heap.mk [([] : List GeomRec)]).arena.length) ∧
    ((updateBucketRefs (extractOf BucketKey.points) [⟨.point [], []⟩] [⟨0, 1⟩]
        (Heap.mk [([] : List GeomRec)]) 0).1.read 0
      = (Heap.mk [([] : List GeomRec)]).read 0) :=
  ⟨by decide,
    (c4_fresh_copy_spliced BucketKey.points [⟨.point [], []⟩] [⟨0, 1⟩]
      (Heap.mk [([] : List GeomRec)]) 0 (by decide)).2.1⟩

/-! ### C10 -/

theorem mem_dedupGo (x : Str) (l : List Str) : ∀ (seen : List Str),
    x ∈ dedupGo seen l → x ∈ l := by
  induction l with
  | nil => intro seen h; simp [dedupGo] at h
  | cons y ys ih =>
    intro seen h
    rw [dedupGo] at h
    by_cases hs : seen.contains y = true
    · rw [if_pos hs] at h
      exact List.mem_cons_of_mem _ (ih seen h)
    · rw [if_neg hs] at h
      rcases List.mem_cons.mp h with rfl | h2
      · exact List.mem_cons_self _ _
      · exact List.mem_cons_of_mem _ (ih (y :: seen) h2)

theorem mem_dedupGo_not_seen (x : Str) (l : List Str) : ∀ (seen : List Str),
    x ∈ dedupGo seen l → x ∉ seen := by
  induction l with
  | nil => intro seen h; simp [dedupGo] at h
  | cons y ys ih =>
    intro seen h
    rw [dedupGo] at h
    by_cases hs : seen.contains y = true
    · rw [if_pos hs] at h
      exact ih seen h
    · rw [if_neg hs] at h
      rcases List.mem_cons.mp h with rfl | h2
      · intro hmem
        exact hs (List.elem_iff.mpr hmem)
      · intro hmem
        exact ih (y :: seen) h2 (List.mem_cons_of_mem _ hmem)

theorem dedupGo_nodup (l : List Str) : ∀ (seen : List Str), (dedupGo seen l).Nodup := by
  induction l with
  | nil => intro seen; simp [dedupGo]
  | cons y ys ih =>
    intro seen
    rw [dedupGo]
    by_cases hs : seen.contains y = true
    · rw [if_pos hs]
      exact ih seen
    · rw [if_neg hs]
      refine List.nodup_cons.mpr ⟨?_, ih (y :: seen)⟩
      intro hmem
      exact mem_dedupGo_not_seen y ys (y :: seen) hmem (List.mem_cons_self _ _)

theorem dedupFirst_nodup (l : List Str) : (dedupFirst l).Nodup :=
  dedupGo_nodup l []

theorem nodup_map_fst_filterMap {γ : Type} (g : Str → Option (Str × γ)) (l : List Str)
    (hl : l.Nodup)
    (hinj : ∀ t1 t2 p1 p2, g t1 = some p1 → g t2 = some p2 →
      Prod.fst p1 = Prod.fst p2 → t1 = t2) :
    ((l.filterMap g).map Prod.fst).Nodup := by
  induction l with
  | nil => simp
  | cons x l ih =>
    have hx := (List.nodup_cons.mp hl).1
    have hl2 := (List.nodup_cons.mp hl).2
    cases hgx : g x with
    | none => simpa [List.filterMap_cons, hgx] using ih hl2
    | some p =>
      simp only [List.filterMap_cons, hgx, List.map_cons]
      refine List.nodup_cons.mpr ⟨?_, ih hl2⟩
      intro hmem
      simp only [List.mem_map] at hmem
      obtain ⟨q, hq, hq1⟩ := hmem
      obtain ⟨t, ht, hgt⟩ := List.mem_filterMap.mp hq
      have heq : t = x := hinj t x q p hgt hgx hq1
      subst heq
      exact hx ht

theorem pointLayerEntry_fst (shouldRender : Str → Bool) (t : Str)
    (p : Str × PointLayerType)
    (h : (match POINT_LAYER t with
          | none => none
          | some m =>
            if shouldRender ("points-".toList ++ t) then
              some ("points-".toList ++ t, m)
            else none) = some p) :
    p.1 = "points-".toList ++ t := by
  cases hm : POINT_LAYER t with
  | none => rw [hm] at h; exact Option.noConfusion h
  | some m =>
    simp only [hm] at h
    by_cases hs : shouldRender ("points-".toList ++ t) = true
    · rw [if_pos hs] at h
      cases h
      rfl
    · rw [if_neg hs] at h
      exact Option.noConfusion h

theorem pointLayerEntry_known (shouldRender : Str → Bool) (t : Str)
    (p : Str × PointLayerType)
    (h : (match POINT_LAYER t with
          | none => none
          | some m =>
            if shouldRender ("points-".toList ++ t) then
              some ("points-".toList ++ t, m)
            else none) = some p) :
    POINT_LAYER t = some p.2 := by
  cases hm : POINT_LAYER t with
  | none => rw [hm] at h; exact Option.noConfusion h
  | some m =>
    simp only [hm] at h
    by_cases hs : shouldRender ("points-".toList ++ t) = true
    · rw [if_pos hs] at h
      cases h
      rfl
    · rw [if_neg hs] at h
      exact Option.noConfusion h

/-- C10: `_renderPointLayers` creates at most one point sub-layer per
distinct `'+'`-separated token of `pointType` (the created sub-layer ids
are pairwise distinct; duplicate tokens collapse through the `Set`, so
`'circle+circle'` yields exactly one layer), and a token that is not a
known `POINT_LAYER` key contributes no sub-layer (and the loop simply
skips it — no error). -/
theorem c10_point_layers_distinct_tokens (pointType : Str) (shouldRender : Str → Bool) :
    ((renderPointLayers pointType shouldRender).map Prod.fst).Nodup
    ∧ (∀ t : Str, POINT_LAYER t = none →
        ∀ m : PointLayerType,
          ("points-".toList ++ t, m) ∉ renderPointLayers pointType shouldRender)
    ∧ renderPointLayers "circle+circle".toList (fun _ => true)
        = [("points-circle".toList, .circle)] := by
  refine ⟨?_, ?_, by decide⟩
  · rw [renderPointLayers]
    apply nodup_map_fst_filterMap _ _ (dedupFirst_nodup _)
    intro t1 t2 p1 p2 h1 h2 hfst
    have e1 := pointLayerEntry_fst shouldRender t1 p1 h1
    have e2 := pointLayerEntry_fst shouldRender t2 p2 h2
    rw [e1, e2] at hfst
    exact (List.append_right_inj _).mp hfst
  · intro t ht m hmem
    rw [renderPointLayers] at hmem
    obtain ⟨t2, _, hg⟩ := List.mem_filterMap.mp hmem
    have e2 := pointLayerEntry_fst shouldRender t2 _ hg
    have k2 := pointLayerEntry_known shouldRender t2 _ hg
    have : t2 = t := (List.append_right_inj _).mp e2.symm
    subst this
    rw [ht] at k2
    exact Option.noConfusion k2

/-- C10 (witness): the unknown token `'foo'` contributes no sub-layer for
`pointType = 'circle+foo'`. -/
theorem c10_witness :
    (POINT_LAYER "foo".toList = none) ∧
    (("points-".toList ++ "foo".toList, PointLayerType.circle) ∉
      renderPointLayers "circle+foo".toList (fun _ => true)) :=
  ⟨by decide,
    (c10_point_layers_distinct_tokens "circle+foo".toList (fun _ => true)).2.1
      "foo".toList (by decide) PointLayerType.circle⟩
